import Mathlib

/-!
Shallow embedding of the search core of the `clarifai-python` client SDK:

* `clarifai/schema/search.py` — the declarative rank/filter schema
  (`get_schema`), embedded as executable validators over a universe `PyVal`
  of Python-like values;
* `clarifai/client/search.py` — the `Search` session: metric gating
  (`__init__`), protobuf assembly (`_get_annot_proto`,
  `_get_geo_point_proto`), validation-then-build (`query`) and the page
  retrieval loop (`list_all_pages_generator`).

Python floating-point values are represented by a bare type tag, because the
embedded code only ever inspects whether a value *is* a float (the
`isinstance` check of the schema library); no float arithmetic occurs.
-/

namespace Clarifai

/-- Universe of Python values handled by the rank/filter schema: ints,
strings, floats (type tag only, see the module docstring), bytes, lists and
string-keyed dicts (association lists in insertion order, keys unique as in
Python). -/
inductive PyVal : Type where
  | int (n : Int)
  | str (s : String)
  | float
  | bytes (b : List Nat)
  | list (xs : List PyVal)
  | dict (kvs : List (String × PyVal))

/-- Type tag check `isinstance(v, float)`. A Python `int` is not a `float`. -/
def isFloatTag : PyVal → Bool
  | .float => true
  | _ => false

/-- Type tag check `isinstance(v, int)` (Python `bool` values are outside the
embedded universe). -/
def isIntTag : PyVal → Bool
  | .int _ => true
  | _ => false

/-- Type tag check `isinstance(v, dict)`. -/
def isDictTag : PyVal → Bool
  | .dict _ => true
  | _ => false

/-- Type tag check `isinstance(v, bytes)`. -/
def isBytesTag : PyVal → Bool
  | .bytes _ => true
  | _ => false

/-- Schema validator `And(str, len)`: a string with truthy (positive) length. -/
def nonEmptyStr : PyVal → Bool
  | .str s => s.length > 0
  | _ => false

/-! ### The concept-name regex

`Optional('name'): And(str, len, Regex(r'^[0-9A-Za-z]+([-_][0-9A-Za-z]+)*$'))`.

The schema library's `Regex` calls `re.search`.  With the `^` anchor the
pattern can only match starting at position 0, and Python's `$` (without
`re.MULTILINE`) matches at the end of the string *or just before a newline at
the end of the string*; so the pattern accepts exactly the strings whose
characters (all of them, or all but one single trailing `'\n'`) form
alphanumeric segments joined by single dashes/underscores. -/

/-- Character class `[0-9A-Za-z]` (ASCII only, as in Python `re` on these
literal ranges). -/
def isWordChar (c : Char) : Bool :=
  ('0' ≤ c && c ≤ '9') || ('A' ≤ c && c ≤ 'Z') || ('a' ≤ c && c ≤ 'z')

/-- Character class `[-_]`. -/
def isSep (c : Char) : Bool :=
  c == '-' || c == '_'

/-- Deterministic matcher for `[0-9A-Za-z]+([-_][0-9A-Za-z]+)*` against the
whole character list.  The flag records whether the previous character was a
word character (i.e. we may accept here or take a separator). -/
def nameCoreAux : List Char → Bool → Bool
  | [], inWord => inWord
  | c :: rest, inWord =>
    if isWordChar c then nameCoreAux rest true
    else if isSep c && inWord then nameCoreAux rest false
    else false

/-- Whole-string match of `[0-9A-Za-z]+([-_][0-9A-Za-z]+)*`. -/
def nameCore (cs : List Char) : Bool :=
  nameCoreAux cs false

/-- Python `re.search(r'^[0-9A-Za-z]+([-_][0-9A-Za-z]+)*$', s)`: the core
pattern matches the whole string, or the whole string minus a single trailing
newline (Python `$` semantics). -/
def nameRegexSearch (s : String) : Bool :=
  nameCore s.data ||
    (match s.data.getLast? with
     | some c => c == '\n' && nameCore s.data.dropLast
     | none => false)

/-- Schema validator for `name`: `And(str, len, Regex(...))`. -/
def nameOk : PyVal → Bool
  | .str s => s.length > 0 && nameRegexSearch s
  | _ => false

/-- Schema validator for `value`: `And(int, lambda x: x in [0, 1])`. -/
def valueOk : PyVal → Bool
  | .int n => n == 0 || n == 1
  | _ => false

/-- Literal-pattern prefix test on character lists (kernel-reducible
counterpart of `String.startsWith`). -/
def charsStart : List Char → List Char → Bool
  | [], _ => true
  | _ :: _, [] => false
  | p :: ps, c :: cs => p == c && charsStart ps cs

/-- Prefix test on strings. -/
def strStarts (pre s : String) : Bool :=
  charsStart pre.data s.data

/-- Schema validator for `image_url`: `And(str, Regex(r'^https?://'))` —
`re.search` of a `^`-anchored pattern, i.e. a prefix match. -/
def imageUrlOk : PyVal → Bool
  | .str s => strStarts "http://" s || strStarts "https://" s
  | _ => false

/-! ### `concept_schema`

```
Schema({ Optional('value'): And(int, lambda x: x in [0, 1]),
         Optional('id'): And(str, len),
         Optional('language'): And(str, len),
         Optional('name'): And(str, len, Regex(...)) })
```
All keys are optional; a dict schema rejects any key not listed and requires
the data to be a dict. -/

/-- Per-key validator of `concept_schema`; an unlisted key is a wrong-key
failure. -/
def conceptFieldOk (k : String) (v : PyVal) : Bool :=
  if k == "value" then valueOk v
  else if k == "id" then nonEmptyStr v
  else if k == "language" then nonEmptyStr v
  else if k == "name" then nameOk v
  else false

/-- `concept_schema.is_valid(item)`: `item` is a dict all of whose entries
pass the per-key validators (all keys optional, so the empty dict passes). -/
def conceptIsValid : PyVal → Bool
  | .dict kvs => kvs.all fun kv => conceptFieldOk kv.1 kv.2
  | _ => false

/-- One element of a `concepts` list in the lambda
`concept_schema.is_valid(item) and len(item) > 0`
(the `len` is only reached for dicts thanks to `and` short-circuiting). -/
def conceptElemOk (v : PyVal) : Bool :=
  conceptIsValid v &&
    (match v with
     | .dict kvs => decide (0 < kvs.length)
     | _ => false)

/-! ### `rank_filter_item_schema` and the top-level schema -/

/-- Sub-schema of `geo_point`: `{'longitude': float, 'latitude': float,
'geo_limit': int}` — three required keys, no others. Per-key check: -/
def geoFieldOk (k : String) (v : PyVal) : Bool :=
  if k == "longitude" then isFloatTag v
  else if k == "latitude" then isFloatTag v
  else if k == "geo_limit" then isIntTag v
  else false

/-- The three required keys of the `geo_point` sub-schema. -/
def geoKeys : List String := ["longitude", "latitude", "geo_limit"]

/-- Validation of a `geo_point` value: a dict, every entry passes its per-key
check (so no extra keys), and each of the three required keys is present. -/
def geoPointOk : PyVal → Bool
  | .dict kvs =>
    (kvs.all fun kv => geoFieldOk kv.1 kv.2) &&
      (geoKeys.all fun k => kvs.any fun kv => kv.1 == k)
  | _ => false

/-- Per-key validator of `rank_filter_item_schema`; an unlisted key is a
wrong-key failure. -/
def itemFieldOk (k : String) (v : PyVal) : Bool :=
  if k == "image_url" then imageUrlOk v
  else if k == "text_raw" then nonEmptyStr v
  else if k == "metadata" then isDictTag v
  else if k == "image_bytes" then isBytesTag v
  else if k == "geo_point" then geoPointOk v
  else if k == "concepts" then
    (match v with
     | .list xs => xs.all conceptElemOk
     | _ => false)
  else false

/-- `rank_filter_item_schema.is_valid(item)`: a dict all of whose entries
pass the per-key validators (all keys optional). -/
def itemIsValid : PyVal → Bool
  | .dict kvs => kvs.all fun kv => itemFieldOk kv.1 kv.2
  | _ => false

/-- The six recognized top-level keys of a rank/filter item. -/
def recognizedKeys : List String :=
  ["image_url", "text_raw", "metadata", "image_bytes", "geo_point", "concepts"]

/-- `get_schema().is_valid(data)` for the top-level `Schema([item_schema])`:
`data` is a list and every element validates against the item schema. -/
def rankFilterValid : PyVal → Bool
  | .list items => items.all itemIsValid
  | _ => false

/-- First element of the list failing the item schema, if any — the value the
schema library's `SchemaError` reports about. -/
def firstInvalidItem : List PyVal → Option PyVal
  | [] => none
  | x :: xs => if itemIsValid x then firstInvalidItem xs else some x

/-- `get_schema().validate(data)`: silent on success, otherwise a
`SchemaError` abstracted as the first offending value (the non-list input
itself, or the first invalid item). -/
def rankFilterValidateE : PyVal → Except PyVal Unit
  | .list items =>
    match firstInvalidItem items with
    | none => .ok ()
    | some x => .error x
  | v => .error v

/-! ## The `Search` client (`clarifai/client/search.py`) -/

/-- Modelled from the spec: `clarifai.client.lister.Lister` is not under
`src/`; per the spec, the page size of every page request is fixed to the
session's configured `top_k`, which `Lister.__init__(page_size=top_k)` stores
as `default_page_size`. -/
def listerDefaultPageSize (pageSize : Nat) : Nat := pageSize

/-- A constructed `Search` session: identity scope, the mapped distance
identifier and the stored page size. -/
structure Session : Type where
  userId : String
  appId : String
  metricDistance : String
  defaultPageSize : Nat

/-- Error raised by `Search.__init__`:
`UserError("Metric should be either cosine or euclidean")`. -/
inductive InitError : Type where
  | badMetric

/-- `Search.__init__`: gate the metric, then map it through
`dict(cosine="COSINE_DISTANCE", euclidean="EUCLIDEAN_DISTANCE")` and store
`top_k` as the page size (via `Lister`). -/
def mkSearch (userId appId : String) (topK : Nat) (metric : String) :
    Except InitError Session :=
  if metric == "cosine" || metric == "euclidean" then
    .ok ⟨userId, appId,
      if metric == "cosine" then "COSINE_DISTANCE" else "EUCLIDEAN_DISTANCE",
      listerDefaultPageSize topK⟩
  else .error .badMetric

/-- Modelled from the spec: the Input-construction collaborator
(`clarifai.client.input`, not under `src/`) turns raw bytes or a URL into an
image descriptor; the core only embeds the returned descriptor into the
annotation data. -/
inductive ImageDesc : Type where
  | ofBytes (v : PyVal)
  | ofUrl (v : PyVal)

/-- Modelled from the spec: the Input-construction collaborator turns the
UTF-8 encoding of `text_raw` into a text descriptor. -/
inductive TextDesc : Type where
  | ofRaw (v : PyVal)

/-- `resources_pb2.Geo` as built by `_get_geo_point_proto`: a point plus a
limit tagged `"withinKilometers"`. -/
structure GeoProto : Type where
  longitude : PyVal
  latitude : PyVal
  limitType : String
  limitValue : PyVal

/-- `_get_geo_point_proto(longitude, latitude, geo_limit)`. -/
def getGeoPointProto (longitude latitude geoLimit : PyVal) : GeoProto :=
  ⟨longitude, latitude, "withinKilometers", geoLimit⟩

/-- The `resources_pb2.Data` fields touched by `_get_annot_proto`. -/
structure DataProto : Type where
  image : Option ImageDesc
  concepts : List PyVal
  text : Option TextDesc
  metadata : Option PyVal
  geo : Option GeoProto

/-- A fresh `resources_pb2.Data()`. -/
def DataProto.empty : DataProto := ⟨none, [], none, none, none⟩

/-- `resources_pb2.Annotation`: `data` is unset for the bare
`Annotation()` and set for `Annotation(data=...)`. -/
structure AnnotProto : Type where
  data : Option DataProto

/-- The bare `resources_pb2.Annotation()` returned for an empty item: the
wildcard annotation, no data populated. -/
def AnnotProto.wildcard : AnnotProto := ⟨none⟩

/-- Errors that can escape `query` and the builder it calls:
`UserError("Invalid rank or filter input: {err}")` with the underlying
`SchemaError` cause, the builder's own
`UserError("kwargs contain key that is not supported: {key}")`, and Python
`KeyError`/`TypeError` (both unreachable once validation has passed). -/
inductive QueryError : Type where
  | invalidInput (cause : PyVal)
  | unsupportedKey (k : String)
  | keyError
  | typeError

/-- Python `value[k]` lookup on a dict, as an `Option`. -/
def dictGet : PyVal → String → Option PyVal
  | .dict kvs, k => (kvs.find? fun kv => kv.1 == k).map Prod.snd
  | _, _ => none

/-- One arm of the `for key, value in kwargs.items()` dispatch in
`_get_annot_proto`, acting on the scratch data proto. -/
def applyKwarg (d : DataProto) (k : String) (v : PyVal) :
    Except QueryError DataProto :=
  if k == "image_bytes" then
    .ok { d with image := some (.ofBytes v) }
  else if k == "image_url" then
    .ok { d with image := some (.ofUrl v) }
  else if k == "concepts" then
    match v with
    | .list cs => .ok { d with concepts := d.concepts ++ cs }
    | _ => .error .typeError
  else if k == "text_raw" then
    .ok { d with text := some (.ofRaw v) }
  else if k == "metadata" then
    .ok { d with metadata := some v }
  else if k == "geo_point" then
    match dictGet v "longitude", dictGet v "latitude", dictGet v "geo_limit" with
    | some lon, some lat, some lim => .ok { d with geo := some (getGeoPointProto lon lat lim) }
    | _, _, _ => .error .keyError
  else .error (.unsupportedKey k)

/-- Folding `applyKwarg` over the keyword list, failing at the first raising
arm as the Python loop does. -/
def applyKwargs (d : DataProto) : List (String × PyVal) → Except QueryError DataProto
  | [] => .ok d
  | kv :: rest =>
    match applyKwarg d kv.1 kv.2 with
    | .ok d2 => applyKwargs d2 rest
    | .error e => .error e

/-- `_get_annot_proto(**kwargs)`: the bare wildcard for no kwargs, otherwise
a fresh data proto filled by the dispatch loop and wrapped in
`Annotation(data=...)`. -/
def getAnnotProto (kwargs : List (String × PyVal)) : Except QueryError AnnotProto :=
  match kwargs with
  | [] => .ok AnnotProto.wildcard
  | _ =>
    match applyKwargs DataProto.empty kwargs with
    | .ok d => .ok ⟨some d⟩
    | .error e => .error e

/-- One annotation per rank/filter dict, in input order (`**rank_dict` on a
non-dict would be a Python `TypeError`, unreachable after validation). -/
def buildAnnotList : List PyVal → Except QueryError (List AnnotProto)
  | [] => .ok []
  | it :: rest =>
    match it with
    | .dict kvs =>
      match getAnnotProto kvs with
      | .ok a =>
        match buildAnnotList rest with
        | .ok tl => .ok (a :: tl)
        | .error e => .error e
      | .error e => .error e
    | _ => .error .typeError

/-- Iterating `for rank_dict in ranks` requires a list (iterating anything
else is unreachable after validation). -/
def buildAnnotsOf : PyVal → Except QueryError (List AnnotProto)
  | .list items => buildAnnotList items
  | _ => .error .typeError

/-- `resources_pb2.Rank(annotation=...)`. -/
structure RankPb : Type where
  annot : AnnotProto

/-- `resources_pb2.Filter(annotation=...)`. -/
structure FilterPb : Type where
  annot : AnnotProto

/-- `resources_pb2.Query(ranks=..., filters=...)`. -/
structure QueryPb : Type where
  ranks : List RankPb
  filters : List FilterPb

/-- `resources_pb2.Search(query=..., metric=...)`. -/
structure SearchPb : Type where
  query : QueryPb
  metric : String

/-- Modelled from the spec: `BaseClient` (not under `src/`) supplies the
`user_app_id` context — the user and app scope embedded unchanged into every
request. -/
structure UserAppId : Type where
  userId : String
  appId : String

/-- The `request_data` dict composed by `query` (the pagination entry is
added later by the page loop). -/
structure RequestData : Type where
  userAppId : UserAppId
  searches : List SearchPb

/-- `Search.query(ranks, filters)` up to the point where the page generator
is created: validate both inputs (re-raising a `SchemaError` as a
`UserError` that carries the cause), build one annotation per item, wrap
them in `Rank`/`Filter`, and compose the single `Search` specification with
the session's metric. -/
def Session.query (s : Session) (ranks filters : PyVal) :
    Except QueryError RequestData :=
  match rankFilterValidateE ranks with
  | .error e => .error (.invalidInput e)
  | .ok _ =>
    match rankFilterValidateE filters with
    | .error e => .error (.invalidInput e)
    | .ok _ =>
      match buildAnnotsOf ranks with
      | .error e => .error e
      | .ok rankAnnots =>
        match buildAnnotsOf filters with
        | .error e => .error e
        | .ok filterAnnots =>
          .ok ⟨⟨s.userId, s.appId⟩,
            [⟨⟨rankAnnots.map fun a => RankPb.mk a,
               filterAnnots.map fun a => FilterPb.mk a⟩,
              s.metricDistance⟩]⟩

/-- The Python defaults of `query`: `ranks=[{}]`, `filters=[{}]`. -/
def defaultRanksFilters : PyVal := .list [.dict []]

/-! ## The pagination loop (`list_all_pages_generator`) -/

/-- Status code `status_code_pb2.SUCCESS` of the external `clarifai_grpc`
collaborator. -/
def SUCCESS : Nat := 10000

/-- One decoded page response, abstracted to what the loop inspects: the
status code and whether the `MessageToDict` rendering contains a `hits`
key. -/
structure PageResponse : Type where
  statusCode : Nat
  hasHits : Bool
deriving DecidableEq

/-- One request issued by the loop: the page number and the fixed
`per_page`. -/
structure PageRequest : Type where
  page : Nat
  perPage : Nat
deriving DecidableEq

/-- How a fully consumed page sequence ended. -/
inductive PagerEnd : Type where
  | done
  | failed (r : PageResponse)
  | starved
deriving DecidableEq

/-- The observable trace of a fully consumed page sequence: the requests
issued, the responses yielded, and how it ended. -/
structure PagerTrace : Type where
  requests : List PageRequest
  yielded : List PageResponse
  ending : PagerEnd
deriving DecidableEq

/-- `list_all_pages_generator`, consumed to exhaustion against a finite
script of responses (the i-th script entry answers the i-th request): each
iteration issues one request with the current page number and the fixed page
size, raises on a non-success status code, breaks when the decoded response
lacks a `hits` key, and otherwise yields the response and moves to the next
page.  `starved` marks scripts too short to reach a terminating response
(the transport's behavior there is outside the embedded code). -/
def runPagerFrom (perPage : Nat) : Nat → List PageResponse → PagerTrace
  | _, [] => ⟨[], [], .starved⟩
  | page, r :: rest =>
    if r.statusCode != SUCCESS then ⟨[⟨page, perPage⟩], [], .failed r⟩
    else if !r.hasHits then ⟨[⟨page, perPage⟩], [], .done⟩
    else
      let t := runPagerFrom perPage (page + 1) rest
      ⟨⟨page, perPage⟩ :: t.requests, r :: t.yielded, t.ending⟩

/-- The page loop started at page 1 as in the code. -/
def runPager (perPage : Nat) (script : List PageResponse) : PagerTrace :=
  runPagerFrom perPage 1 script

/-- The page requests a caller of `query` causes to be issued when consuming
the returned sequence to exhaustion: none at all when `query` raises before
creating it. -/
def queryRequests (s : Session) (ranks filters : PyVal)
    (script : List PageResponse) : List PageRequest :=
  match s.query ranks filters with
  | .error _ => []
  | .ok _ => (runPager s.defaultPageSize script).requests

/-- Transcription of the spec sentence on `geo_point` (the refinement target
of claim C4): an object with exactly the three fields `longitude`
(floating point), `latitude` (floating point) and `geo_limit` (integer),
extra keys rejected. -/
def geoSpecOk (kvs : List (String × PyVal)) : Prop :=
  (∀ p ∈ kvs, p.1 = "longitude" ∨ p.1 = "latitude" ∨ p.1 = "geo_limit") ∧
  (∀ p ∈ kvs, (p.1 = "longitude" → isFloatTag p.2 = true) ∧
    (p.1 = "latitude" → isFloatTag p.2 = true) ∧
    (p.1 = "geo_limit" → isIntTag p.2 = true)) ∧
  ("longitude" ∈ kvs.map Prod.fst) ∧ ("latitude" ∈ kvs.map Prod.fst) ∧
  ("geo_limit" ∈ kvs.map Prod.fst)

/-- The regex character class `[0-9A-Za-z_-]` of legal name characters. -/
def inNameClass (c : Char) : Bool :=
  isWordChar c || isSep c

/-- No two adjacent dash/underscore separators. -/
def noAdjacentSeps : List Char → Bool
  | [] => true
  | [_] => true
  | a :: b :: rest => !(isSep a && isSep b) && noAdjacentSeps (b :: rest)

/-- First character exists and is alphanumeric. -/
def headIsWord (cs : List Char) : Bool :=
  match cs.head? with
  | some c => isWordChar c
  | none => false

/-- Last character exists and is alphanumeric. -/
def lastIsWord (cs : List Char) : Bool :=
  match cs.getLast? with
  | some c => isWordChar c
  | none => false

/-- Last character is alphanumeric, or there is none. -/
def lastIsWordOrEmpty (cs : List Char) : Bool :=
  match cs.getLast? with
  | some c => isWordChar c
  | none => true

/-- Transcription of the name rule in the claim's vocabulary (the refinement
target of claim C5): non-empty, every character in `[0-9A-Za-z_-]`, no
leading or trailing separator run (alphanumeric first and last characters)
and no two adjacent separators — equivalently, alphanumeric segments joined
by single dashes/underscores. -/
def specNameOk (cs : List Char) : Bool :=
  headIsWord cs && cs.all inNameClass && noAdjacentSeps cs && lastIsWord cs

/-! ## Verification of the claims -/

/-! Helper lemmas -/

lemma isSep_not_word {c : Char} (h : isSep c = true) : isWordChar c = false := by
  simp only [isSep, Bool.or_eq_true, beq_iff_eq] at h
  rcases h with rfl | rfl <;> decide

lemma nameCoreAux_mem : ∀ (cs : List Char) (b : Bool), nameCoreAux cs b = true →
    ∀ c ∈ cs, (isWordChar c || isSep c) = true := by
  intro cs
  induction cs with
  | nil => intro b _ c hc; cases hc
  | cons d tl ih =>
    intro b h c hc
    simp only [nameCoreAux] at h
    rcases List.mem_cons.mp hc with rfl | hc
    · by_cases hw : isWordChar c = true
      · simp [hw]
      · rw [if_neg hw] at h
        by_cases hs : (isSep c && b) = true
        · have hs1 : isSep c = true := by
            have h2 := hs; simp only [Bool.and_eq_true] at h2; exact h2.1
          simp [hs1]
        · rw [if_neg hs] at h; exact absurd h (by simp)
    · by_cases hw : isWordChar d = true
      · rw [if_pos hw] at h; exact ih true h c hc
      · rw [if_neg hw] at h
        by_cases hs : (isSep d && b) = true
        · rw [if_pos hs] at h; exact ih false h c hc
        · rw [if_neg hs] at h; exact absurd h (by simp)

lemma nameCoreAux_last : ∀ (cs : List Char) (b : Bool) (c : Char),
    nameCoreAux (cs ++ [c]) b = true → isWordChar c = true := by
  intro cs
  induction cs with
  | nil =>
    intro b c h
    simp only [List.nil_append, nameCoreAux] at h
    by_cases hw : isWordChar c = true
    · exact hw
    · rw [if_neg hw] at h
      by_cases hs : (isSep c && b) = true
      · rw [if_pos hs] at h; exact absurd h (by simp [nameCoreAux])
      · rw [if_neg hs] at h; exact absurd h (by simp)
  | cons d tl ih =>
    intro b c h
    simp only [List.cons_append, nameCoreAux] at h
    by_cases hw : isWordChar d = true
    · rw [if_pos hw] at h; exact ih true c h
    · rw [if_neg hw] at h
      by_cases hs : (isSep d && b) = true
      · rw [if_pos hs] at h; exact ih false c h
      · rw [if_neg hs] at h; exact absurd h (by simp)

lemma nameCore_cons_sep {c : Char} (cs : List Char) (h : isSep c = true) :
    nameCore (c :: cs) = false := by
  simp only [nameCore, nameCoreAux]
  simp [isSep_not_word h]

lemma itemFieldOk_concepts (v : PyVal) :
    itemFieldOk "concepts" v =
      (match v with | .list xs => xs.all conceptElemOk | _ => false) := rfl

lemma itemFieldOk_geo_point (v : PyVal) :
    itemFieldOk "geo_point" v = geoPointOk v := rfl

lemma conceptElemOk_name (s : String) :
    conceptElemOk (.dict [("name", .str s)]) =
      (decide (0 < s.length) && nameRegexSearch s) := by
  simp [conceptElemOk, conceptIsValid, conceptFieldOk, nameOk, List.all]

lemma conceptElemOk_value (v : PyVal) :
    conceptElemOk (.dict [("value", v)]) = valueOk v := by
  simp [conceptElemOk, conceptIsValid, conceptFieldOk, List.all]

/-- Claim C1 counterexample: the claim says an item whose `concepts` value is
the empty list fails validation, but `And(list, lambda x: all(...))` accepts
the empty list (`all` of nothing is true), so the item passes. -/
theorem concepts_empty_list_passes :
    rankFilterValid (.list [.dict [("concepts", .list [])]]) = true := by decide

/-- Claim C1 (amended): for every rank/filter item containing a `concepts`
key, validation succeeds only if the value is a list — possibly empty, which
is the amendment — in which every element is a non-empty object satisfying
ConceptSpec, and any single element failing ConceptSpec (or being empty)
makes validation of the whole item fail. -/
theorem concepts_validation (kvs : List (String × PyVal)) (v : PyVal)
    (hmem : ("concepts", v) ∈ kvs) :
    (itemIsValid (.dict kvs) = true →
      ∃ xs, v = .list xs ∧ ∀ x ∈ xs, conceptIsValid x = true ∧
        ∃ ckvs, x = .dict ckvs ∧ 0 < ckvs.length) ∧
    (∀ xs x, v = .list xs → x ∈ xs → conceptElemOk x = false →
      itemIsValid (.dict kvs) = false) := by
  constructor
  · intro hvalid
    have hfield : itemFieldOk "concepts" v = true := by
      simp only [itemIsValid, List.all_eq_true] at hvalid
      exact hvalid ("concepts", v) hmem
    rw [itemFieldOk_concepts] at hfield
    match v, hfield with
    | .list xs, hfield =>
      refine ⟨xs, rfl, ?_⟩
      intro x hx
      have hel : conceptElemOk x = true := by
        rw [List.all_eq_true] at hfield
        exact hfield x hx
      simp only [conceptElemOk, Bool.and_eq_true] at hel
      refine ⟨hel.1, ?_⟩
      match x, hel with
      | .dict ckvs, hel =>
        exact ⟨ckvs, rfl, by simpa using hel.2⟩
  · rintro xs x rfl hx hbad
    by_contra hne
    have hvalid : itemIsValid (.dict kvs) = true := by
      cases h : itemIsValid (.dict kvs)
      · exact absurd h hne
      · rfl
    simp only [itemIsValid, List.all_eq_true] at hvalid
    have hfield := hvalid ("concepts", .list xs) hmem
    rw [itemFieldOk_concepts, List.all_eq_true] at hfield
    exact absurd (hfield x hx) (by simp [hbad])

/-- Claim C1 witness: the amended theorem applied to the concrete item
`[{"concepts": [{"name": "dog", "value": 1}]}]`. -/
theorem concepts_validation_witness :
    ∃ xs, (PyVal.list [.dict [("name", .str "dog"), ("value", .int 1)]]) = .list xs ∧
      ∀ x ∈ xs, conceptIsValid x = true ∧ ∃ ckvs, x = .dict ckvs ∧ 0 < ckvs.length :=
  (concepts_validation
      [("concepts", .list [.dict [("name", .str "dog"), ("value", .int 1)]])]
      (.list [.dict [("name", .str "dog"), ("value", .int 1)]])
      (by simp)).1 (by decide)

lemma word_not_sep {c : Char} (h : isWordChar c = true) : isSep c = false := by
  cases hs : isSep c
  · rfl
  · rw [isSep_not_word hs] at h
    exact absurd h (by simp)

lemma lastIsWordOrEmpty_eq_lastIsWord {cs : List Char} (h : cs ≠ []) :
    lastIsWordOrEmpty cs = lastIsWord cs := by
  rcases hg : cs.getLast? with _ | x
  · exact absurd (List.getLast?_eq_none_iff.mp hg) h
  · simp [lastIsWordOrEmpty, lastIsWord, hg]

lemma lastIsWord_cons_cons (a b : Char) (l : List Char) :
    lastIsWord (a :: b :: l) = lastIsWord (b :: l) := by
  simp [lastIsWord, List.getLast?_cons_cons]

lemma lastIsWordOrEmpty_cons_cons (a b : Char) (l : List Char) :
    lastIsWordOrEmpty (a :: b :: l) = lastIsWordOrEmpty (b :: l) := by
  simp [lastIsWordOrEmpty, List.getLast?_cons_cons]

lemma lastIsWordOrEmpty_cons (a : Char) (l : List Char) :
    lastIsWordOrEmpty (a :: l) = lastIsWord (a :: l) :=
  lastIsWordOrEmpty_eq_lastIsWord (by simp)

lemma eq_dropLast_concat_of_getLast {l : List Char} {a : Char}
    (h : l.getLast? = some a) : l = l.dropLast ++ [a] := by
  rcases l.eq_nil_or_concat with rfl | ⟨l2, b, rfl⟩
  · simp at h
  · rw [List.concat_eq_append] at h ⊢
    rw [List.getLast?_concat] at h
    rw [List.dropLast_concat]
    simp_all

/-- The two states of the name matcher, characterized by the global
conditions of `specNameOk`: started in the in-word state, a list is accepted
iff all its characters are in class, no two separators are adjacent and the
last character (if any) is alphanumeric; started in the initial state, iff
additionally the list is non-empty and starts with an alphanumeric. -/
lemma nameCoreAux_spec : ∀ cs : List Char,
    nameCoreAux cs true =
      (cs.all inNameClass && noAdjacentSeps cs && lastIsWordOrEmpty cs) ∧
    nameCoreAux cs false = specNameOk cs := by
  intro cs
  induction cs with
  | nil => exact ⟨rfl, rfl⟩
  | cons c rest ih =>
    obtain ⟨iht, ihf⟩ := ih
    have hstep_t : nameCoreAux (c :: rest) true =
        (if isWordChar c = true then nameCoreAux rest true
         else if isSep c = true then nameCoreAux rest false else false) := by
      simp [nameCoreAux]
    have hstep_f : nameCoreAux (c :: rest) false =
        (if isWordChar c = true then nameCoreAux rest true else false) := by
      simp [nameCoreAux]
    by_cases hw : isWordChar c = true
    · have hcl : inNameClass c = true := by simp [inNameClass, hw]
      have hns : isSep c = false := word_not_sep hw
      rw [hstep_t, hstep_f, if_pos hw, if_pos hw, iht]
      cases rest with
      | nil =>
        constructor
        · simp [noAdjacentSeps, lastIsWordOrEmpty, hcl, hw]
        · simp [specNameOk, headIsWord, noAdjacentSeps, lastIsWord,
            lastIsWordOrEmpty, hcl, hw]
      | cons r0 rest2 =>
        constructor
        · simp [List.all_cons, hcl, noAdjacentSeps, hns,
            lastIsWordOrEmpty_cons_cons]
        · simp [specNameOk, headIsWord, List.all_cons, hcl, hw, noAdjacentSeps,
            hns, lastIsWord_cons_cons, lastIsWordOrEmpty_cons]
    · have hwf : isWordChar c = false := by
        cases hx : isWordChar c
        · rfl
        · exact absurd hx hw
      by_cases hs : isSep c = true
      · have hcl : inNameClass c = true := by simp [inNameClass, hs]
        rw [hstep_t, hstep_f, if_neg hw, if_neg hw, if_pos hs, ihf]
        constructor
        · cases rest with
          | nil =>
            simp [specNameOk, headIsWord, noAdjacentSeps, lastIsWordOrEmpty,
              lastIsWord, hcl, hwf]
          | cons r0 rest2 =>
            simp only [specNameOk, headIsWord, List.head?_cons, List.all_cons,
              noAdjacentSeps, hs, Bool.true_and, hcl, lastIsWord_cons_cons,
              lastIsWordOrEmpty_cons_cons, lastIsWordOrEmpty_cons]
            by_cases hr : isWordChar r0 = true
            · simp [hr, word_not_sep hr, inNameClass]
            · have hrf : isWordChar r0 = false := by
                cases hx : isWordChar r0
                · rfl
                · exact absurd hx hr
              by_cases hrs : isSep r0 = true
              · simp [hrf, hrs]
              · have hrsf : isSep r0 = false := by
                  cases hx : isSep r0
                  · rfl
                  · exact absurd hx hrs
                simp [hrf, hrsf, inNameClass]
        · simp [specNameOk, headIsWord, hwf]
      · have hsf : isSep c = false := by
          cases hx : isSep c
          · rfl
          · exact absurd hx hs
        have hcl : inNameClass c = false := by simp [inNameClass, hwf, hsf]
        rw [hstep_t, hstep_f, if_neg hw, if_neg hw, if_neg hs]
        constructor
        · simp [List.all_cons, hcl]
        · simp [specNameOk, List.all_cons, hcl]

lemma nameCore_eq_specNameOk (cs : List Char) : nameCore cs = specNameOk cs :=
  (nameCoreAux_spec cs).2

lemma specNameOk_mem {cs : List Char} (h : specNameOk cs = true) :
    ∀ c ∈ cs, inNameClass c = true := by
  have hall : cs.all inNameClass = true := by
    simp only [specNameOk, Bool.and_eq_true] at h
    exact h.1.1.2
  exact List.all_eq_true.mp hall

lemma specNameOk_ne_nil {cs : List Char} (h : specNameOk cs = true) : cs ≠ [] := by
  intro hnil
  subst hnil
  exact absurd h (by decide)

/-- Claim C5 counterexample: the claim says a `name` containing a character
outside `[0-9A-Za-z_-]` fails, but the name `"dog\n"` — whose last character
is the newline `Char.ofNat 10`, outside that class — passes, because the
schema library applies the `^...$` regex with `re.search` and Python `$` also
matches just before a trailing newline. -/
theorem concept_name_trailing_newline_passes :
    isWordChar (Char.ofNat 10) = false ∧ isSep (Char.ofNat 10) = false ∧
    conceptElemOk (.dict [("name", .str "dog\n")]) = true ∧
    rankFilterValid
      (.list [.dict [("concepts", .list [.dict [("name", .str "dog\n")]])]]) = true := by
  refine ⟨by decide, by decide, by decide, by decide⟩

/-- Claim C5 (amended): for a single concept object, an object whose only
key is `value` passes iff the value is 0 or 1 (so `value = 2` fails); the
empty object fails; a `name` is accepted iff it satisfies the name rule
`specNameOk` (non-empty, every character in `[0-9A-Za-z_-]`, no leading or
trailing separator run, no two adjacent separators) either as a whole or
after removing a single trailing newline — so a character outside the class
is tolerated only as the single newline terminating an otherwise-valid name
(the amendment, forced by Python `$` semantics); in particular a name
starting or ending with a separator fails, as do the newline-terminated but
otherwise-invalid names `"d@g\n"`, `"dog\n\n"` and `"x_\n"`. -/
theorem concept_spec_validation :
    (∀ n : Int, conceptElemOk (.dict [("value", .int n)]) = true ↔ (n = 0 ∨ n = 1)) ∧
    conceptElemOk (.dict []) = false ∧
    (∀ s : String, conceptElemOk (.dict [("name", .str s)]) = true ↔
      (specNameOk s.data = true ∨
        ∃ pre, s.data = pre ++ [Char.ofNat 10] ∧ specNameOk pre = true)) ∧
    (∀ (s : String) (c : Char), c ∈ s.data → inNameClass c = false →
      conceptElemOk (.dict [("name", .str s)]) = true →
      c = Char.ofNat 10 ∧ ∃ pre, s.data = pre ++ [Char.ofNat 10] ∧
        specNameOk pre = true) ∧
    (∀ (s : String) (c : Char) (cs : List Char), s.data = c :: cs → isSep c = true →
      conceptElemOk (.dict [("name", .str s)]) = false) ∧
    (∀ (s : String) (pre : List Char) (c : Char), s.data = pre ++ [c] → isSep c = true →
      conceptElemOk (.dict [("name", .str s)]) = false) ∧
    (conceptElemOk (.dict [("name", .str "d@g\n")]) = false ∧
     conceptElemOk (.dict [("name", .str "dog\n\n")]) = false ∧
     conceptElemOk (.dict [("name", .str "x_\n")]) = false) := by
  have h3 : ∀ s : String, conceptElemOk (.dict [("name", .str s)]) = true ↔
      (specNameOk s.data = true ∨
        ∃ pre, s.data = pre ++ [Char.ofNat 10] ∧ specNameOk pre = true) := by
    intro s
    rw [conceptElemOk_name]
    constructor
    · intro h
      rw [Bool.and_eq_true] at h
      have hrs := h.2
      simp only [nameRegexSearch, Bool.or_eq_true] at hrs
      rcases hrs with hcore | hnl
      · refine Or.inl ?_
        rw [← nameCore_eq_specNameOk]
        exact hcore
      · rcases hg : s.data.getLast? with _ | c0
        · rw [hg] at hnl
          exact absurd hnl (by simp)
        · rw [hg] at hnl
          simp only [Bool.and_eq_true, beq_iff_eq] at hnl
          obtain ⟨hc0, hcore⟩ := hnl
          subst hc0
          refine Or.inr ⟨s.data.dropLast, eq_dropLast_concat_of_getLast hg, ?_⟩
          rw [← nameCore_eq_specNameOk]
          exact hcore
    · intro h
      rw [Bool.and_eq_true]
      rcases h with hsp | ⟨pre, hpre, hsp⟩
      · have hne : s.data ≠ [] := specNameOk_ne_nil hsp
        refine ⟨decide_eq_true (List.length_pos.mpr hne), ?_⟩
        simp only [nameRegexSearch, Bool.or_eq_true]
        refine Or.inl ?_
        rw [nameCore_eq_specNameOk]
        exact hsp
      · refine ⟨decide_eq_true ?_, ?_⟩
        · show 0 < s.length
          rw [show s.length = s.data.length from rfl, hpre]
          simp
        · simp only [nameRegexSearch, Bool.or_eq_true]
          refine Or.inr ?_
          rw [hpre, List.getLast?_concat]
          simp only [List.dropLast_concat, beq_self_eq_true, Bool.true_and]
          rw [nameCore_eq_specNameOk]
          exact hsp
  refine ⟨?_, by decide, h3, ?_, ?_, ?_, ⟨by decide, by decide, by decide⟩⟩
  · intro n
    rw [conceptElemOk_value]
    simp [valueOk]
  · intro s c hc hcl hacc
    rcases (h3 s).mp hacc with hsp | ⟨pre, hpre, hsp⟩
    · exact absurd (specNameOk_mem hsp c hc) (by simp [hcl])
    · rw [hpre] at hc
      rcases List.mem_append.mp hc with hc2 | hc2
      · exact absurd (specNameOk_mem hsp c hc2) (by simp [hcl])
      · rw [List.mem_singleton] at hc2
        exact ⟨hc2, pre, hpre, hsp⟩
  · intro s c cs hs hsep
    rw [conceptElemOk_name]
    have hregex : nameRegexSearch s = false := by
      simp only [nameRegexSearch, hs]
      rw [nameCore_cons_sep cs hsep]
      simp only [Bool.false_or]
      rcases hcs : (c :: cs).getLast? with _ | c0
      · simp at hcs
      · simp only []
        by_cases hc0 : c0 = Char.ofNat 10
        · subst hc0
          rcases cs with _ | ⟨d, ds⟩
          · simp at hcs
            exact absurd (hcs ▸ hsep) (by decide)
          · simp only [List.dropLast_cons₂]
            rw [nameCore_cons_sep _ hsep]
            simp
        · simp [hc0]
    rw [hregex]
    simp
  · intro s pre c hs hsep
    rw [conceptElemOk_name]
    have hcore : nameCore (pre ++ [c]) = false := by
      cases h : nameCore (pre ++ [c])
      · rfl
      · have := nameCoreAux_last pre false c h
        rw [isSep_not_word hsep] at this
        exact absurd this (by simp)
    have hregex : nameRegexSearch s = false := by
      simp only [nameRegexSearch, hs, hcore, Bool.false_or, List.getLast?_concat]
      have : (c == Char.ofNat 10) = false := by
        rcases (by simpa [isSep] using hsep : c = '-' ∨ c = '_') with rfl | rfl <;> decide
      simp [this]
    rw [hregex]
    simp

/-- Claim C5 witness: the amended theorem applied to the concrete name
`"-dog"`, which starts with a separator and is rejected. -/
theorem concept_spec_validation_witness :
    conceptElemOk (.dict [("name", .str "-dog")]) = false :=
  concept_spec_validation.2.2.2.2.1 "-dog" '-' ['d', 'o', 'g'] rfl (by decide)

lemma geoFieldOk_iff (k : String) (v : PyVal) :
    geoFieldOk k v = true ↔
      ((k = "longitude" ∨ k = "latitude" ∨ k = "geo_limit") ∧
       (k = "longitude" → isFloatTag v = true) ∧
       (k = "latitude" → isFloatTag v = true) ∧
       (k = "geo_limit" → isIntTag v = true)) := by
  simp only [geoFieldOk, beq_iff_eq]
  split_ifs with h1 h2 h3
  · subst h1; simp
  · subst h2; simp
  · subst h3; simp
  · simp [h1, h2, h3]

/-- Claim C4: for every rank/filter item containing a `geo_point` key,
validation succeeds iff the value is an object with exactly the three fields
`longitude` (float), `latitude` (float) and `geo_limit` (int) — extra keys
and wrong types fail (`geoSpecOk` transcribes the spec sentence), and a
non-object value fails. -/
theorem geo_point_validation :
    (∀ kvs : List (String × PyVal),
      itemIsValid (.dict [("geo_point", .dict kvs)]) = true ↔ geoSpecOk kvs) ∧
    (∀ v : PyVal, (∀ kvs, v ≠ .dict kvs) →
      itemIsValid (.dict [("geo_point", v)]) = false) := by
  constructor
  · intro kvs
    have hred : itemIsValid (.dict [("geo_point", .dict kvs)]) =
        geoPointOk (.dict kvs) := by
      simp [itemIsValid, List.all, itemFieldOk_geo_point]
    rw [hred]
    simp only [geoPointOk, Bool.and_eq_true, List.all_eq_true, List.any_eq_true,
      beq_iff_eq, geoSpecOk, geoKeys, List.mem_map]
    constructor
    · rintro ⟨hfields, hkeys⟩
      refine ⟨fun p hp => ((geoFieldOk_iff p.1 p.2).mp (hfields p hp)).1,
        fun p hp => ((geoFieldOk_iff p.1 p.2).mp (hfields p hp)).2, ?_, ?_, ?_⟩
      · obtain ⟨p, hp, he⟩ := hkeys "longitude" (by simp)
        exact ⟨p, hp, he⟩
      · obtain ⟨p, hp, he⟩ := hkeys "latitude" (by simp)
        exact ⟨p, hp, he⟩
      · obtain ⟨p, hp, he⟩ := hkeys "geo_limit" (by simp)
        exact ⟨p, hp, he⟩
    · rintro ⟨hnames, htypes, hlon, hlat, hlim⟩
      constructor
      · intro p hp
        exact (geoFieldOk_iff p.1 p.2).mpr ⟨hnames p hp, htypes p hp⟩
      · intro k hk
        simp only [List.mem_cons, List.mem_singleton, List.not_mem_nil, or_false] at hk
        rcases hk with rfl | rfl | rfl
        · obtain ⟨p, hp, he⟩ := hlon; exact ⟨p, hp, he⟩
        · obtain ⟨p, hp, he⟩ := hlat; exact ⟨p, hp, he⟩
        · obtain ⟨p, hp, he⟩ := hlim; exact ⟨p, hp, he⟩
  · intro v hv
    have hred : itemIsValid (.dict [("geo_point", v)]) = geoPointOk v := by
      simp [itemIsValid, List.all, itemFieldOk_geo_point]
    rw [hred]
    match v, hv with
    | .int n, _ => rfl
    | .str s, _ => rfl
    | .float, _ => rfl
    | .bytes b, _ => rfl
    | .list xs, _ => rfl
    | .dict kvs, hv => exact absurd rfl (hv kvs)

/-- Claim C4 witness: the theorem applied to the non-object value `5`. -/
theorem geo_point_validation_witness :
    itemIsValid (.dict [("geo_point", .int 5)]) = false :=
  geo_point_validation.2 (.int 5) (fun _ h => PyVal.noConfusion h)

lemma itemFieldOk_unrecognized {k : String} (v : PyVal)
    (h : k ∉ recognizedKeys) : itemFieldOk k v = false := by
  simp only [recognizedKeys, List.mem_cons, List.mem_singleton, List.not_mem_nil,
    or_false, not_or] at h
  obtain ⟨h1, h2, h3, h4, h5, h6⟩ := h
  simp only [itemFieldOk, beq_iff_eq]
  rw [if_neg h1, if_neg h2, if_neg h3, if_neg h4, if_neg h5, if_neg h6]

/-- Claim C6: a list of items each containing only recognized keys with
conforming values validates, and any item with an unrecognized top-level key
makes validation of the list fail. -/
theorem recognized_keys_validation (items : List PyVal) :
    ((∀ it ∈ items, ∃ kvs, it = .dict kvs ∧
        ∀ p ∈ kvs, p.1 ∈ recognizedKeys ∧ itemFieldOk p.1 p.2 = true) →
      rankFilterValid (.list items) = true) ∧
    (∀ (it : PyVal) (kvs : List (String × PyVal)) (p : String × PyVal),
      it ∈ items → it = .dict kvs → p ∈ kvs → p.1 ∉ recognizedKeys →
      rankFilterValid (.list items) = false) := by
  constructor
  · intro h
    simp only [rankFilterValid, List.all_eq_true]
    intro it hit
    obtain ⟨kvs, rfl, hfields⟩ := h it hit
    simp only [itemIsValid, List.all_eq_true]
    exact fun p hp => (hfields p hp).2
  · rintro it kvs p hit rfl hp hk
    cases hvalid : rankFilterValid (.list items)
    · rfl
    · exfalso
      simp only [rankFilterValid, List.all_eq_true] at hvalid
      have := hvalid (.dict kvs) hit
      simp only [itemIsValid, List.all_eq_true] at this
      have := this p hp
      rw [itemFieldOk_unrecognized p.2 hk] at this
      exact absurd this (by simp)

/-- Claim C6 witness: the theorem applied to the conforming list
`[{"text_raw": "x"}]` and to the list `[{"bogus": 1}]` with an unrecognized
key. -/
theorem recognized_keys_validation_witness :
    rankFilterValid (.list [.dict [("text_raw", .str "x")]]) = true ∧
    rankFilterValid (.list [.dict [("bogus", .int 1)]]) = false :=
  ⟨(recognized_keys_validation [.dict [("text_raw", .str "x")]]).1
      (by
        intro it hit
        rw [List.mem_singleton] at hit
        subst hit
        exact ⟨[("text_raw", .str "x")], rfl, by decide⟩),
    (recognized_keys_validation [.dict [("bogus", .int 1)]]).2
      (.dict [("bogus", .int 1)]) [("bogus", .int 1)] ("bogus", .int 1)
      (List.mem_singleton.mpr rfl) rfl (List.mem_singleton.mpr rfl) (by decide)⟩

/-- Claim C7: constructing a Search session fails iff the metric is neither
"cosine" nor "euclidean", and on success "cosine" maps to COSINE_DISTANCE and
"euclidean" to EUCLIDEAN_DISTANCE. -/
theorem metric_gating (u a : String) (k : Nat) (m : String) :
    ((∃ s, mkSearch u a k m = .ok s) ↔ (m = "cosine" ∨ m = "euclidean")) ∧
    (¬(m = "cosine" ∨ m = "euclidean") → mkSearch u a k m = .error .badMetric) ∧
    (∀ s, mkSearch u a k "cosine" = .ok s → s.metricDistance = "COSINE_DISTANCE") ∧
    (∀ s, mkSearch u a k "euclidean" = .ok s → s.metricDistance = "EUCLIDEAN_DISTANCE") := by
  refine ⟨?_, ?_, ?_, ?_⟩
  · constructor
    · rintro ⟨s, hs⟩
      by_cases h : (m == "cosine" || m == "euclidean") = true
      · simpa using h
      · rw [mkSearch, if_neg h] at hs
        exact absurd hs (by simp)
    · intro h
      have hb : (m == "cosine" || m == "euclidean") = true := by
        rcases h with rfl | rfl <;> simp
      exact ⟨_, by rw [mkSearch, if_pos hb]⟩
  · intro h
    have hb : (m == "cosine" || m == "euclidean") = false := by
      simp only [Bool.or_eq_false_iff, beq_eq_false_iff_ne]
      exact ⟨fun h1 => h (Or.inl h1), fun h2 => h (Or.inr h2)⟩
    rw [mkSearch, if_neg (by simp [hb])]
  · intro s hs
    rw [mkSearch] at hs
    simp only [if_pos (by decide : (("cosine" == "cosine") || ("cosine" == "euclidean")) = true)] at hs
    rw [← Except.ok.inj hs]
    rfl
  · intro s hs
    rw [mkSearch] at hs
    simp only [if_pos (by decide : (("euclidean" == "cosine") || ("euclidean" == "euclidean")) = true)] at hs
    rw [← Except.ok.inj hs]
    rfl

/-- Claim C7 witness: the theorem applied to the metric "manhattan", which
is rejected at construction. -/
theorem metric_gating_witness :
    mkSearch "u" "a" 10 "manhattan" = .error .badMetric :=
  (metric_gating "u" "a" 10 "manhattan").2.1 (by decide)

lemma pageReq_range_shift (k page n : Nat) :
    (⟨page, k⟩ : PageRequest) ::
        (List.range (n + 1)).map (fun i => (⟨page + 1 + i, k⟩ : PageRequest)) =
      (List.range (n + 1 + 1)).map (fun i => (⟨page + i, k⟩ : PageRequest)) := by
  conv_rhs => rw [List.range_succ_eq_map, List.map_cons, List.map_map]
  congr 1
  apply List.map_congr_left
  intro i _
  have h : page + 1 + i = page + (i + 1) := by omega
  simp [Function.comp, Nat.succ_eq_add_one, h]

lemma runPagerFrom_good_stop (k : Nat) (stop : PageResponse)
    (rest : List PageResponse) (h1 : stop.statusCode = SUCCESS)
    (h2 : stop.hasHits = false) :
    ∀ (good : List PageResponse) (page : Nat),
      (∀ r ∈ good, r.statusCode = SUCCESS ∧ r.hasHits = true) →
      runPagerFrom k page (good ++ stop :: rest) =
        ⟨(List.range (good.length + 1)).map (fun i => ⟨page + i, k⟩), good, .done⟩ := by
  intro good
  induction good with
  | nil =>
    intro page _
    simp [runPagerFrom, h1, h2, show List.range 1 = [0] from rfl]
  | cons r tl ih =>
    intro page hg
    have hr := hg r (by simp)
    have htl := ih (page + 1) (fun x hx => hg x (by simp [hx]))
    have hstep : runPagerFrom k page ((r :: tl) ++ stop :: rest) =
        ⟨⟨page, k⟩ :: (runPagerFrom k (page + 1) (tl ++ stop :: rest)).requests,
         r :: (runPagerFrom k (page + 1) (tl ++ stop :: rest)).yielded,
         (runPagerFrom k (page + 1) (tl ++ stop :: rest)).ending⟩ := by
      simp [runPagerFrom, hr.1, hr.2]
    rw [hstep, htl]
    simp only [List.length_cons]
    rw [← pageReq_range_shift]

lemma runPagerFrom_good_bad (k : Nat) (bad : PageResponse)
    (rest : List PageResponse) (hbad : bad.statusCode ≠ SUCCESS) :
    ∀ (good : List PageResponse) (page : Nat),
      (∀ r ∈ good, r.statusCode = SUCCESS ∧ r.hasHits = true) →
      runPagerFrom k page (good ++ bad :: rest) =
        ⟨(List.range (good.length + 1)).map (fun i => ⟨page + i, k⟩), good,
          .failed bad⟩ := by
  intro good
  induction good with
  | nil =>
    intro page _
    have hb : (bad.statusCode != SUCCESS) = true := bne_iff_ne.mpr hbad
    simp [runPagerFrom, hb, show List.range 1 = [0] from rfl]
  | cons r tl ih =>
    intro page hg
    have hr := hg r (by simp)
    have htl := ih (page + 1) (fun x hx => hg x (by simp [hx]))
    have hstep : runPagerFrom k page ((r :: tl) ++ bad :: rest) =
        ⟨⟨page, k⟩ :: (runPagerFrom k (page + 1) (tl ++ bad :: rest)).requests,
         r :: (runPagerFrom k (page + 1) (tl ++ bad :: rest)).yielded,
         (runPagerFrom k (page + 1) (tl ++ bad :: rest)).ending⟩ := by
      simp [runPagerFrom, hr.1, hr.2]
    rw [hstep, htl]
    simp only [List.length_cons]
    rw [← pageReq_range_shift]

/-- Claim C2: against any script of successful hit-bearing responses
followed by a successful response without a hits field, the fully consumed
page loop yields exactly the hit-bearing prefix, issues exactly one more
request than it yields — with page numbers 1, 2, ... and the fixed page size —
and stops without requesting past the response that lacked hits; the page
size of a session built with `top_k = k` is `k`. -/
theorem pagination_loop (k : Nat) (good : List PageResponse) (stop : PageResponse)
    (rest : List PageResponse)
    (hgood : ∀ r ∈ good, r.statusCode = SUCCESS ∧ r.hasHits = true)
    (hstop1 : stop.statusCode = SUCCESS) (hstop2 : stop.hasHits = false) :
    (runPager k (good ++ stop :: rest)).yielded = good ∧
    (runPager k (good ++ stop :: rest)).requests =
      (List.range (good.length + 1)).map (fun i => ⟨i + 1, k⟩) ∧
    (runPager k (good ++ stop :: rest)).ending = .done ∧
    (∀ (u a m : String) (s : Session), mkSearch u a k m = .ok s →
      s.defaultPageSize = k) := by
  have h := runPagerFrom_good_stop k stop rest hstop1 hstop2 good 1 hgood
  rw [runPager, h]
  refine ⟨rfl, ?_, rfl, ?_⟩
  · apply List.map_congr_left
    intro i _
    congr 1
    omega
  · intro u a m s hs
    by_cases hm : (m == "cosine" || m == "euclidean") = true
    · rw [mkSearch, if_pos hm] at hs
      rw [← Except.ok.inj hs]
      rfl
    · rw [mkSearch, if_neg hm] at hs
      exact absurd hs (by simp)

/-- Claim C2 witness: the theorem applied to the concrete script of the
claim — pages 1 and 2 have hits, page 3 omits the hits field — yielding 2
pages from exactly 3 requests even though a fourth scripted response
exists. -/
theorem pagination_loop_witness :
    (runPager 7 [⟨10000, true⟩, ⟨10000, true⟩, ⟨10000, false⟩, ⟨10000, true⟩]).yielded
        = [⟨10000, true⟩, ⟨10000, true⟩] ∧
    (runPager 7 [⟨10000, true⟩, ⟨10000, true⟩, ⟨10000, false⟩, ⟨10000, true⟩]).requests
        = (List.range ([(⟨10000, true⟩ : PageResponse), ⟨10000, true⟩].length + 1)).map
            (fun i => ⟨i + 1, 7⟩) ∧
    (runPager 7 [⟨10000, true⟩, ⟨10000, true⟩, ⟨10000, false⟩, ⟨10000, true⟩]).ending
        = .done ∧
    (∀ (u a m : String) (s : Session), mkSearch u a 7 m = .ok s →
      s.defaultPageSize = 7) :=
  pagination_loop 7 [⟨10000, true⟩, ⟨10000, true⟩] ⟨10000, false⟩ [⟨10000, true⟩]
    (by decide) (by decide) (by decide)

/-- Claim C8: if a response mid-pagination carries a non-success status
code, the loop raises an error surfacing that raw response — before the
hits-field check, since the failing response's hits field is unconstrained —
yields only the preceding pages and issues no request beyond the failing
one. -/
theorem pagination_failure (k : Nat) (good : List PageResponse) (bad : PageResponse)
    (rest : List PageResponse)
    (hgood : ∀ r ∈ good, r.statusCode = SUCCESS ∧ r.hasHits = true)
    (hbad : bad.statusCode ≠ SUCCESS) :
    (runPager k (good ++ bad :: rest)).ending = .failed bad ∧
    (runPager k (good ++ bad :: rest)).yielded = good ∧
    (runPager k (good ++ bad :: rest)).requests.length = good.length + 1 := by
  have h := runPagerFrom_good_bad k bad rest hbad good 1 hgood
  rw [runPager, h]
  refine ⟨rfl, rfl, by simp⟩

/-- Claim C8 witness: the theorem applied to a script whose second response
has status code 40003 and no hits field; the loop raises (rather than
breaking), showing the status check precedes the hits check. -/
theorem pagination_failure_witness :
    (runPager 7 [⟨10000, true⟩, ⟨40003, false⟩, ⟨10000, true⟩]).ending
        = .failed ⟨40003, false⟩ ∧
    (runPager 7 [⟨10000, true⟩, ⟨40003, false⟩, ⟨10000, true⟩]).yielded
        = [⟨10000, true⟩] ∧
    (runPager 7 [⟨10000, true⟩, ⟨40003, false⟩, ⟨10000, true⟩]).requests.length
        = [(⟨10000, true⟩ : PageResponse)].length + 1 :=
  pagination_failure 7 [⟨10000, true⟩] ⟨40003, false⟩ [⟨10000, true⟩]
    (by decide) (by decide)

lemma firstInvalidItem_eq_none {items : List PyVal} :
    firstInvalidItem items = none ↔ items.all itemIsValid = true := by
  induction items with
  | nil => simp [firstInvalidItem]
  | cons x xs ih =>
    simp only [firstInvalidItem, List.all_cons, Bool.and_eq_true]
    by_cases hx : itemIsValid x = true
    · rw [if_pos hx]
      simp [hx, ih]
    · rw [if_neg hx]
      simp [hx]

lemma validateE_ok_of_valid {v : PyVal} (h : rankFilterValid v = true) :
    rankFilterValidateE v = .ok () := by
  match v, h with
  | .list items, h =>
    rw [rankFilterValidateE]
    rw [show firstInvalidItem items = none from firstInvalidItem_eq_none.mpr h]

lemma validateE_error_of_invalid {v : PyVal} (h : rankFilterValid v = false) :
    ∃ c, rankFilterValidateE v = .error c := by
  match v with
  | .list items =>
    rcases hf : firstInvalidItem items with _ | x
    · rw [firstInvalidItem_eq_none] at hf
      rw [rankFilterValid] at h
      rw [hf] at h
      exact absurd h (by simp)
    · exact ⟨x, by rw [rankFilterValidateE, hf]⟩
  | .int n => exact ⟨.int n, rfl⟩
  | .str s => exact ⟨.str s, rfl⟩
  | .float => exact ⟨.float, rfl⟩
  | .bytes b => exact ⟨.bytes b, rfl⟩
  | .dict kvs => exact ⟨.dict kvs, rfl⟩

/-- Claim C3: whenever schema validation of ranks or filters fails, `query`
raises a user-facing error carrying the underlying validation cause, and no
page request is ever issued for that call. -/
theorem validation_failure_preempts_network (s : Session) (ranks filters : PyVal)
    (h : rankFilterValid ranks = false ∨ rankFilterValid filters = false) :
    (∃ cause, s.query ranks filters = .error (.invalidInput cause)) ∧
    (∀ script, queryRequests s ranks filters script = []) := by
  have hq : ∃ cause, s.query ranks filters = .error (.invalidInput cause) := by
    by_cases hr : rankFilterValid ranks = true
    · have hf : rankFilterValid filters = false := by
        rcases h with h | h
        · exact absurd h (by simp [hr])
        · exact h
      obtain ⟨c, hc⟩ := validateE_error_of_invalid hf
      exact ⟨c, by rw [Session.query, validateE_ok_of_valid hr, hc]⟩
    · have hr2 : rankFilterValid ranks = false := by
        cases hx : rankFilterValid ranks
        · rfl
        · exact absurd hx hr
      obtain ⟨c, hc⟩ := validateE_error_of_invalid hr2
      exact ⟨c, by rw [Session.query, hc]⟩
  refine ⟨hq, ?_⟩
  intro script
  obtain ⟨c, hc⟩ := hq
  rw [queryRequests, hc]

/-- Claim C3 witness: the theorem applied to the filters input of the
repository's own test — a `geo_point` with an extra key. -/
theorem validation_failure_preempts_network_witness :
    (∃ cause, (Session.mk "u" "a" "COSINE_DISTANCE" 10).query
        (.list [.dict [("geo_point", .dict [("longitude", .float), ("latitude", .float),
          ("geo_limit", .int 10), ("extra", .int 1)])]])
        defaultRanksFilters = .error (.invalidInput cause)) ∧
    (∀ script, queryRequests (Session.mk "u" "a" "COSINE_DISTANCE" 10)
        (.list [.dict [("geo_point", .dict [("longitude", .float), ("latitude", .float),
          ("geo_limit", .int 10), ("extra", .int 1)])]])
        defaultRanksFilters script = []) :=
  validation_failure_preempts_network (Session.mk "u" "a" "COSINE_DISTANCE" 10)
    (.list [.dict [("geo_point", .dict [("longitude", .float), ("latitude", .float),
      ("geo_limit", .int 10), ("extra", .int 1)])]])
    defaultRanksFilters (Or.inl (by decide))

/-- Claim C9: building an Annotation from the empty QueryItem yields the
bare wildcard Annotation, whose data fields are all unpopulated. -/
theorem empty_item_wildcard :
    getAnnotProto [] = .ok AnnotProto.wildcard ∧ AnnotProto.wildcard.data = none :=
  ⟨rfl, rfl⟩

/-- Claim C10: with both arguments defaulted to `[{}]`, `query` passes
validation and returns — with no error raised before the page sequence is
created — a request whose single search carries exactly one Rank wrapper and
exactly one Filter wrapper, each wrapping the wildcard Annotation. -/
theorem default_query (s : Session) :
    rankFilterValid defaultRanksFilters = true ∧
    s.query defaultRanksFilters defaultRanksFilters =
      .ok ⟨⟨s.userId, s.appId⟩,
        [⟨⟨[⟨AnnotProto.wildcard⟩], [⟨AnnotProto.wildcard⟩]⟩, s.metricDistance⟩]⟩ :=
  ⟨by decide, rfl⟩

end Clarifai
